import Mathlib

/-!
# Verification of the PDF-to-Markdown/LaTeX pipeline (`src/main.py`)

This file shallowly embeds the data-transformation core of `main.py`:

* `strReplace` models Python's `str.replace(old, new)` (all occurrences,
  left to right, non-overlapping) on `List Char`; the source only calls it
  with non-empty patterns of the shape `![id](id)`.
* `pathSuffix` models `pathlib.Path(...).suffix` (the `.ext` tail of the
  final path component, empty when the dot is absent, first, or last).
* `strNat` models `str(counter)` for a natural number (decimal digits).
* `b64decode` models `base64.b64decode` in its default (legacy) mode:
  characters outside the alphabet are discarded, a data-character count
  `≡ 1 (mod 4)` or missing padding is an error.
* `processImages` / `processPages` / `process_pdf` embed the extraction
  loop of `process_pdf` (lines 110-147), threading the global counter.
* `runDoc` / `mainBatch` embed the orchestration of `main` (lines
  205-243) as an action-trace semantics.
-/

namespace PdfPipeline

/-! ## Python `str.replace` on character lists -/

/-- Fuel-driven worker for `strReplace`; with `fuel ≥ s.length` the fuel
never runs out (each step consumes at least one character of `s`). -/
def replaceAux (old new : List Char) : Nat → List Char → List Char
  | _, [] => []
  | 0, s => s
  | fuel + 1, c :: rest =>
    if old.isPrefixOf (c :: rest) then
      new ++ replaceAux old new fuel ((c :: rest).drop old.length)
    else
      c :: replaceAux old new fuel rest

/-- Model of Python `s.replace(old, new)` for a non-empty `old`: every
occurrence of `old` in `s`, scanning left to right without overlap, is
replaced by `new`.  (The source only calls `replace` with patterns of the
form `![id](id)`, which are never empty; for `old = []` we return `s`.) -/
def strReplace (s old new : List Char) : List Char :=
  if old.isEmpty then s else replaceAux old new s.length s

/-- Does `pat` occur as a contiguous substring of `s`? -/
def hasSubstr (pat : List Char) : List Char → Bool
  | [] => pat.isEmpty
  | c :: rest => pat.isPrefixOf (c :: rest) || hasSubstr pat rest

/-- `noOccStarting pat a t = true` iff no occurrence of `pat` in `a ++ t`
starts inside `a` (i.e. at an index `< a.length`). -/
def noOccStarting (pat : List Char) : List Char → List Char → Bool
  | [], _ => true
  | c :: a, t => !(pat.isPrefixOf (c :: (a ++ t))) && noOccStarting pat a t

/-! ## `pathlib.Path(...).suffix` and `str(n)` -/

/-- The final path component: the text after the last `/` (models
`pathlib.Path(p).name` for paths without a trailing slash). -/
def lastComponent (p : List Char) : List Char :=
  p.foldl (fun acc c => if c = '/' then [] else acc ++ [c]) []

/-- Model of `pathlib.Path(p).suffix`: the segment of the final component
from its last dot on, empty when there is no dot or the dot is the first
or last character of the component. -/
def pathSuffix (p : List Char) : List Char :=
  if ((lastComponent p).reverse.takeWhile (fun c => c ≠ '.')).length ≠ 0 ∧
      ((lastComponent p).reverse.takeWhile (fun c => c ≠ '.')).length + 1 <
        (lastComponent p).length then
    '.' :: ((lastComponent p).reverse.takeWhile (fun c => c ≠ '.')).reverse
  else
    []

/-- Fuel-driven most-significant-first decimal digits of `n` (empty for
`n = 0`); `fuel ≥ n` suffices. -/
def decimalAux : Nat → Nat → List Char
  | _, 0 => []
  | 0, _ + 1 => []
  | fuel + 1, n + 1 =>
    decimalAux fuel ((n + 1) / 10) ++ [Nat.digitChar ((n + 1) % 10)]

/-- Model of Python `str(n)` for a natural number. -/
def strNat (n : Nat) : List Char :=
  if n = 0 then ['0'] else decimalAux n n

/-- Decimal value of a digit string (inverse of `strNat`). -/
def charsVal (l : List Char) : Nat :=
  l.foldl (fun a c => a * 10 + (c.toNat - 48)) 0

/-! ## `base64.b64decode` (default, legacy mode) -/

/-- Failure modes of `binascii.a2b_base64` exercised by `b64decode`. -/
inductive B64Error where
  /-- "Invalid base64-encoded string: number of data characters cannot be
  1 more than a multiple of 4". -/
  | invalidData : B64Error
  /-- "Incorrect padding". -/
  | incorrectPadding : B64Error
deriving DecidableEq, Repr

/-- Value of a standard-alphabet base64 character, `none` otherwise. -/
def b64CharVal (c : Char) : Option Nat :=
  if 'A' ≤ c ∧ c ≤ 'Z' then some (c.toNat - 65)
  else if 'a' ≤ c ∧ c ≤ 'z' then some (c.toNat - 97 + 26)
  else if '0' ≤ c ∧ c ≤ '9' then some (c.toNat - 48 + 52)
  else if c = '+' then some 62
  else if c = '/' then some 63
  else none

/-- Reassemble 6-bit groups into bytes (4 groups → 3 bytes; a final group
of 2 or 3 data characters yields 1 or 2 bytes). -/
def b64Bytes : List Nat → List Nat
  | [] => []
  | [_] => []
  | [a, b] => [a * 4 + b / 16]
  | [a, b, c] => [a * 4 + b / 16, b % 16 * 16 + c / 4]
  | a :: b :: c :: d :: rest =>
    (a * 4 + b / 16) :: (b % 16 * 16 + c / 4) :: (c % 4 * 64 + d) :: b64Bytes rest

/-- Model of `base64.b64decode` with `validate=False` (the call on line
121): characters outside the alphabet are discarded, the data characters
before the first `=` are decoded; a count `≡ 1 (mod 4)` is an error, and
a count `≢ 0 (mod 4)` needs enough `=` padding to complete the quad. -/
def b64decode (s : List Char) : Except B64Error (List Nat) :=
  if ((s.takeWhile (fun c => c ≠ '=')).filterMap b64CharVal).length % 4 = 1 then
    .error .invalidData
  else if ((s.takeWhile (fun c => c ≠ '=')).filterMap b64CharVal).length % 4 ≠ 0 ∧
      ((s.takeWhile (fun c => c ≠ '=')).filterMap b64CharVal).length % 4 +
        ((s.dropWhile (fun c => c ≠ '=')).filter (fun c => c = '=')).length < 4 then
    .error .incorrectPadding
  else
    .ok (b64Bytes ((s.takeWhile (fun c => c ≠ '=')).filterMap b64CharVal))

/-! ## Data model of the recognition result (lines 110-141) -/

/-- An inline-embedded image of a recognized page (`image_obj`): its id
and its base64 payload. -/
structure EmbeddedImage where
  id : List Char
  image_base64 : List Char
deriving DecidableEq, Repr

/-- One recognized page: its markdown and its embedded images, in order. -/
structure Page where
  markdown : List Char
  images : List EmbeddedImage
deriving DecidableEq, Repr

/-- An image file written to the `images` subdirectory: its assigned file
name and its decoded bytes. -/
structure ExtractedFile where
  name : List Char
  bytes : List Nat
deriving DecidableEq, Repr

/-- Errors that abort `process_pdf` for the current document during
extraction. -/
inductive ExtractError where
  /-- `IndexError` from `base64_str.split(",", 1)[1]` when a `data:`
  payload has no comma (line 120). -/
  | indexError : ExtractError
  /-- `binascii.Error` from `base64.b64decode` (line 121). -/
  | binascii (e : B64Error) : ExtractError
deriving DecidableEq, Repr

/-- Lines 118-121: strip the `data:...,` prefix only when the payload
starts with `data:` (taking the text after the first comma, an
`IndexError` when there is none), then base64-decode. -/
def decodePayload (payload : List Char) : Except ExtractError (List Nat) :=
  if ("data:".toList).isPrefixOf payload then
    match payload.dropWhile (fun c => c ≠ ',') with
    | [] => .error .indexError
    | _ :: rest => (b64decode rest).mapError ExtractError.binascii
  else
    (b64decode payload).mapError ExtractError.binascii

/-- Line 124: the output extension, the id's suffix with fallback `.png`
when that suffix is absent or empty. -/
def image_ext (id : List Char) : List Char :=
  if pathSuffix id = [] then ".png".toList else pathSuffix id

/-- Line 125: `f"{pdf_base}_img_{global_counter}{ext}"`. -/
def image_name (base : List Char) (counter : Nat) (id : List Char) : List Char :=
  base ++ "_img_".toList ++ strNat counter ++ image_ext id

/-- Lines 117-131 for a single image: decode the payload (document-fatal
on failure) and produce the file to write under its assigned name. -/
def extract_image (base : List Char) (counter : Nat) (img : EmbeddedImage) :
    Except ExtractError ExtractedFile :=
  (decodePayload img.image_base64).map fun bytes =>
    ⟨image_name base counter img.id, bytes⟩

/-- The self-referential reference pattern `f"![{id}]({id})"` (line 136). -/
def imgPat (id : List Char) : List Char :=
  "![".toList ++ id ++ "](".toList ++ id ++ ")".toList

/-- The rewritten reference `f"![{id}]({path})"` with the same alt text
(line 137, where `path` is `images/{new_image_name}`). -/
def imgRef (id path : List Char) : List Char :=
  "![".toList ++ id ++ "](".toList ++ path ++ ")".toList

/-- Lines 135-138: replace every occurrence of `![id](id)` in the page
markdown by `![id](path)`. -/
def replace_image_ref (id path md : List Char) : List Char :=
  strReplace md (imgPat id) (imgRef id path)

/-- Result of the inner image loop of `process_pdf` (lines 115-138) on
one page: files written so far, the updated markdown, the counter after
the loop, and the pending error if an image failed to decode. -/
structure ImagesResult where
  files : List ExtractedFile
  markdown : List Char
  counter : Nat
  err : Option ExtractError
deriving DecidableEq, Repr

/-- Result of the page loop of `process_pdf` (lines 113-139): files
written, rewritten page markdowns collected in `updated_markdown_pages`,
final counter, pending error. -/
structure PagesResult where
  files : List ExtractedFile
  pages : List (List Char)
  counter : Nat
  err : Option ExtractError
deriving DecidableEq, Repr

/-- Lines 115-138: the loop over one page's images.  Each image is
decoded (an error aborts the document), written under
`{base}_img_{counter}{ext}`, the counter advances by exactly one, and the
page markdown is rewritten for that image. -/
def processImages (base : List Char) : Nat → List Char → List EmbeddedImage → ImagesResult
  | counter, md, [] => ⟨[], md, counter, none⟩
  | counter, md, img :: rest =>
    match extract_image base counter img with
    | .error e => ⟨[], md, counter, some e⟩
    | .ok f =>
      let r := processImages base (counter + 1)
        (replace_image_ref img.id ("images/".toList ++ f.name) md) rest
      ⟨f :: r.files, r.markdown, r.counter, r.err⟩

/-- Lines 110-139: the loop over pages, threading `global_counter` across
page boundaries (it is never reset). -/
def processPages (base : List Char) : Nat → List Page → PagesResult
  | counter, [] => ⟨[], [], counter, none⟩
  | counter, p :: ps =>
    let r := processImages base counter p.markdown p.images
    match r.err with
    | some e => ⟨r.files, [], r.counter, some e⟩
    | none =>
      let rs := processPages base r.counter ps
      ⟨r.files ++ rs.files, r.markdown :: rs.pages, rs.counter, rs.err⟩

/-- Line 141: `"\n\n".join(updated_markdown_pages)`. -/
def assemble (mds : List (List Char)) : List Char :=
  List.intercalate "\n\n".toList mds

/-- All embedded images of a document, in page order. -/
def docImages (pages : List Page) : List EmbeddedImage :=
  (pages.map Page.images).flatten

/-- Lines 110-147 of `process_pdf` after the OCR call: either the
extracted files together with the assembled markdown, or the
document-fatal extraction error. -/
def process_pdf (base : List Char) (pages : List Page) :
    Except ExtractError (List ExtractedFile × List Char) :=
  match (processPages base 1 pages).err with
  | some e => .error e
  | none => .ok ((processPages base 1 pages).files, assemble (processPages base 1 pages).pages)

/-! ## Orchestration (`main`, lines 205-243, and `convert_md_to_latex`,
lines 150-202) -/

/-- Observable filesystem/process actions of one document's run, in the
order the source performs them. -/
inductive Action where
  /-- Line 102: write `ocr_response.json` in the document's output dir. -/
  | writeOcrJson (stem : List Char) : Action
  /-- Lines 129-131: write one extracted image file. -/
  | writeImage (stem name : List Char) : Action
  /-- Lines 142-144: write the assembled `output.md`. -/
  | writeMarkdown (stem : List Char) : Action
  /-- Line 185: invoke pandoc on the persisted markdown. -/
  | runPandoc (stem : List Char) : Action
  /-- Line 240: `shutil.move` the input PDF to the done directory. -/
  | moveToDone (name : List Char) : Action
deriving DecidableEq, Repr

/-- Why one document's processing raised (caught per document on
line 242). -/
inductive DocError where
  /-- The recognition-service call (lines 83-97) raised. -/
  | ocrFailed : DocError
  /-- An embedded image failed to decode (lines 118-121). -/
  | extractFailed (e : ExtractError) : DocError
  /-- Writing the assembled markdown raised an `OSError` (lines 142-144). -/
  | writeFailed : DocError
deriving DecidableEq, Repr

/-- Failure of the pandoc invocation, caught inside `convert_md_to_latex`
(lines 194-198): the function prints a diagnostic and returns `None`. -/
inductive PandocError where
  | processError : PandocError
deriving DecidableEq, Repr

/-- One input document together with the outcomes of its external
interactions: `ocrResult = none` models a recognition-service failure,
`persistFails` a filesystem error writing `output.md`, and `pandocFails`
a failing pandoc invocation. -/
structure PdfDoc where
  /-- The input file name (e.g. `doc.pdf`), used by the final move. -/
  name : List Char
  /-- `pdf_path.stem`, the document base name. -/
  stem : List Char
  /-- The pages of the recognition result, `none` if the service call
  raised. -/
  ocrResult : Option (List Page)
  /-- Whether writing the assembled markdown raises. -/
  persistFails : Bool
  /-- Whether the pandoc invocation raises `CalledProcessError`. -/
  pandocFails : Bool
deriving DecidableEq, Repr

/-- Lines 150-202, `convert_md_to_latex`: on success the path of the
generated `.tex` file, on a failing pandoc invocation a diagnostic is
reported and no output is produced (the Python function returns `None`
after printing the error). -/
def convert_md_to_latex (fails : Bool) (stem : List Char) :
    Except PandocError (List Char) :=
  if fails then .error .processError
  else .ok ("latex_output/".toList ++ stem ++ "/".toList ++ stem ++ ".tex".toList)

instance {ε α : Type} [DecidableEq ε] [DecidableEq α] : DecidableEq (Except ε α) := fun x y =>
  match x, y with
  | .ok a, .ok b =>
    if h : a = b then .isTrue (by rw [h]) else .isFalse (by intro hc; cases hc; exact h rfl)
  | .error a, .error b =>
    if h : a = b then .isTrue (by rw [h]) else .isFalse (by intro hc; cases hc; exact h rfl)
  | .ok _, .error _ => .isFalse (by intro hc; cases hc)
  | .error _, .ok _ => .isFalse (by intro hc; cases hc)

/-- Outcome of one iteration of the batch loop (lines 226-243): the
actions performed, the error caught by the per-document handler (if any),
and the conversion outcome (`none` when the conversion stage did not
run). -/
structure DocResult where
  trace : List Action
  err : Option DocError
  tex : Option (Except PandocError (List Char))
deriving DecidableEq, Repr

/-- One document driven through lines 226-241: OCR, json snapshot, the
extraction loop (`processPages`), the markdown write, the optional pandoc
stage, and — last, only on success — the move of the input to the done
directory.  A raise at any step ends the trace there. -/
def runDoc (pandocAvailable : Bool) (d : PdfDoc) : DocResult :=
  match d.ocrResult with
  | none => ⟨[], some .ocrFailed, none⟩
  | some pages =>
    let r := processPages d.stem 1 pages
    let writes := Action.writeOcrJson d.stem ::
      r.files.map fun f => Action.writeImage d.stem f.name
    match r.err with
    | some e => ⟨writes, some (.extractFailed e), none⟩
    | none =>
      if d.persistFails then ⟨writes, some .writeFailed, none⟩
      else
        ⟨(writes ++ [Action.writeMarkdown d.stem] ++
            (if pandocAvailable then [Action.runPandoc d.stem] else [])) ++
            [Action.moveToDone d.name],
          none,
          if pandocAvailable then some (convert_md_to_latex d.pandocFails d.stem)
          else none⟩

/-- Lines 221-243: the batch loop.  `pandocAvailable` is resolved once
before the loop (lines 210-218); each document is processed inside its
own `try/except`, so the loop always reaches every document. -/
def mainBatch (pandocAvailable : Bool) (docs : List PdfDoc) : List DocResult :=
  docs.map (runDoc pandocAvailable)

/-- `Except.isOk` as a plain definition usable in decidable statements. -/
def isOkE {ε α : Type} : Except ε α → Bool
  | .ok _ => true
  | .error _ => false

/-! ## Lemmas about `strReplace` -/

theorem replaceAux_nil (old new : List Char) (fuel : Nat) :
    replaceAux old new fuel [] = [] := by
  cases fuel <;> rfl

theorem replaceAux_cons_pos (old new : List Char) (fuel : Nat) (c : Char)
    (rest : List Char) (h : old.isPrefixOf (c :: rest) = true) :
    replaceAux old new (fuel + 1) (c :: rest) =
      new ++ replaceAux old new fuel ((c :: rest).drop old.length) := by
  simp [replaceAux, h]

theorem replaceAux_cons_neg (old new : List Char) (fuel : Nat) (c : Char)
    (rest : List Char) (h : old.isPrefixOf (c :: rest) = false) :
    replaceAux old new (fuel + 1) (c :: rest) = c :: replaceAux old new fuel rest := by
  simp [replaceAux, h]

theorem replaceAux_fuel (old new : List Char) (hold : old ≠ []) :
    ∀ fuel₁ fuel₂ s, s.length ≤ fuel₁ → s.length ≤ fuel₂ →
      replaceAux old new fuel₁ s = replaceAux old new fuel₂ s := by
  intro fuel₁
  induction fuel₁ with
  | zero =>
    intro fuel₂ s hs₁ _
    have : s = [] := List.length_eq_zero.mp (Nat.le_zero.mp hs₁)
    subst this
    rw [replaceAux_nil, replaceAux_nil]
  | succ f ih =>
    intro fuel₂ s hs₁ hs₂
    cases s with
    | nil => rw [replaceAux_nil, replaceAux_nil]
    | cons c rest =>
      cases fuel₂ with
      | zero => exact absurd hs₂ (by simp)
      | succ f₂ =>
        cases h : old.isPrefixOf (c :: rest) with
        | true =>
          rw [replaceAux_cons_pos old new f c rest h,
            replaceAux_cons_pos old new f₂ c rest h]
          have hlen : ((c :: rest).drop old.length).length ≤ rest.length := by
            have h1 : 1 ≤ old.length := by
              cases old with
              | nil => exact absurd rfl hold
              | cons _ _ => simp
            simp only [List.length_drop, List.length_cons]
            omega
          congr 1
          exact ih f₂ _ (le_trans hlen (Nat.le_of_succ_le_succ hs₁))
            (le_trans hlen (Nat.le_of_succ_le_succ hs₂))
        | false =>
          rw [replaceAux_cons_neg old new f c rest h,
            replaceAux_cons_neg old new f₂ c rest h]
          congr 1
          exact ih f₂ rest (Nat.le_of_succ_le_succ hs₁) (Nat.le_of_succ_le_succ hs₂)

theorem strReplace_nil (old new : List Char) : strReplace [] old new = [] := by
  unfold strReplace
  split
  · rfl
  · exact replaceAux_nil old new 0

theorem strReplace_eq_aux (s old new : List Char) (hold : old ≠ []) :
    strReplace s old new = replaceAux old new s.length s := by
  unfold strReplace
  rw [if_neg]
  simp [List.isEmpty_iff, hold]

theorem strReplace_head_match (old new t : List Char) (hold : old ≠ []) :
    strReplace (old ++ t) old new = new ++ strReplace t old new := by
  obtain ⟨o, old', rfl⟩ : ∃ o old', old = o :: old' := by
    cases old with
    | nil => exact absurd rfl hold
    | cons o old' => exact ⟨o, old', rfl⟩
  rw [strReplace_eq_aux _ _ _ hold, strReplace_eq_aux t _ _ hold]
  show replaceAux (o :: old') new (o :: (old' ++ t)).length (o :: (old' ++ t)) = _
  have hpre : (o :: old').isPrefixOf (o :: (old' ++ t)) = true := by
    rw [List.isPrefixOf_iff_prefix]
    exact List.prefix_append (o :: old') t
  rw [List.length_cons, replaceAux_cons_pos _ new _ o (old' ++ t) hpre]
  congr 1
  have hdrop : (o :: (old' ++ t)).drop (o :: old').length = t :=
    List.drop_left (o :: old') t
  rw [hdrop]
  exact replaceAux_fuel (o :: old') new hold (old' ++ t).length t.length t
    (by rw [List.length_append]; omega) le_rfl

theorem strReplace_head_skip (old new : List Char) (c : Char) (s : List Char)
    (hold : old ≠ []) (h : old.isPrefixOf (c :: s) = false) :
    strReplace (c :: s) old new = c :: strReplace s old new := by
  unfold strReplace
  have : old.isEmpty = false := by
    cases old with
    | nil => exact absurd rfl hold
    | cons _ _ => rfl
  simp only [this, Bool.false_eq_true, if_false, List.length_cons]
  exact replaceAux_cons_neg old new s.length c s h

theorem strReplace_of_not_hasSubstr (old new : List Char) (hold : old ≠ []) :
    ∀ s, hasSubstr old s = false → strReplace s old new = s := by
  intro s
  induction s with
  | nil => intro _; exact strReplace_nil old new
  | cons c rest ih =>
    intro h
    simp only [hasSubstr, Bool.or_eq_false_iff] at h
    rw [strReplace_head_skip old new c rest hold h.1, ih h.2]

/-! ## Lemmas about `strNat` and `image_name` -/

theorem digitChar_val : ∀ d < 10, (Nat.digitChar d).toNat - 48 = d := by decide

theorem digitChar_isDigit : ∀ d < 10, (Nat.digitChar d).isDigit = true := by decide

theorem charsVal_append_one (l : List Char) (c : Char) :
    charsVal (l ++ [c]) = charsVal l * 10 + (c.toNat - 48) := by
  unfold charsVal
  rw [List.foldl_append]
  rfl

theorem decimalAux_val : ∀ fuel n, n ≤ fuel → charsVal (decimalAux fuel n) = n := by
  intro fuel
  induction fuel with
  | zero =>
    intro n hn
    have : n = 0 := Nat.le_zero.mp hn
    subst this
    rfl
  | succ f ih =>
    intro n hn
    cases n with
    | zero => rfl
    | succ m =>
      show charsVal (decimalAux f ((m + 1) / 10) ++ [Nat.digitChar ((m + 1) % 10)]) = m + 1
      rw [charsVal_append_one, ih ((m + 1) / 10) (by omega),
        digitChar_val ((m + 1) % 10) (Nat.mod_lt _ (by omega))]
      omega

theorem strNat_val (n : Nat) : charsVal (strNat n) = n := by
  unfold strNat
  split
  · subst ‹n = 0›
    rfl
  · exact decimalAux_val n n le_rfl

theorem strNat_inj (n m : Nat) (h : strNat n = strNat m) : n = m := by
  have := congrArg charsVal h
  rwa [strNat_val, strNat_val] at this

theorem decimalAux_digits : ∀ fuel n c, c ∈ decimalAux fuel n → c.isDigit = true := by
  intro fuel
  induction fuel with
  | zero =>
    intro n c hc
    cases n with
    | zero => cases hc
    | succ m => cases hc
  | succ f ih =>
    intro n c hc
    cases n with
    | zero => cases hc
    | succ m =>
      rcases List.mem_append.mp hc with h | h
      · exact ih _ c h
      · rw [List.mem_singleton.mp h]
        exact digitChar_isDigit ((m + 1) % 10) (Nat.mod_lt _ (by omega))

theorem strNat_digits (n : Nat) : ∀ c ∈ strNat n, c.isDigit = true := by
  intro c hc
  unfold strNat at hc
  split at hc
  · rw [List.mem_singleton.mp hc]
    decide
  · exact decimalAux_digits n n c hc

theorem takeWhile_append_stop (p : Char → Bool) :
    ∀ (l : List Char) (c : Char) (t : List Char), (∀ x ∈ l, p x = true) → p c = false →
      (l ++ c :: t).takeWhile p = l := by
  intro l
  induction l with
  | nil =>
    intro c t _ hc
    simp [List.takeWhile_cons, hc]
  | cons a l ih =>
    intro c t hl hc
    have ha : p a = true := hl a (List.mem_cons_self a l)
    show ((a :: (l ++ c :: t)).takeWhile p) = a :: l
    rw [List.takeWhile_cons, ha]
    simp only [if_true]
    rw [ih c t (fun x hx => hl x (List.mem_cons_of_mem a hx)) hc]

theorem image_ext_head (id : List Char) : ∃ t, image_ext id = '.' :: t := by
  unfold image_ext
  split
  · exact ⟨"png".toList, rfl⟩
  · unfold pathSuffix
    split
    · exact ⟨_, rfl⟩
    · rename_i hne _
      exact absurd (by unfold pathSuffix; rw [if_neg ‹¬_›]) hne

theorem image_name_counter_inj (base : List Char) (k : Nat) (id : List Char)
    (k' : Nat) (id' : List Char) (h : image_name base k id = image_name base k' id') :
    k = k' := by
  unfold image_name at h
  rw [List.append_assoc, List.append_assoc, List.append_assoc, List.append_assoc] at h
  have h1 := List.append_cancel_left h
  have h2 := List.append_cancel_left h1
  obtain ⟨t, ht⟩ := image_ext_head id
  obtain ⟨t', ht'⟩ := image_ext_head id'
  rw [ht, ht'] at h2
  have h3 := congrArg (List.takeWhile Char.isDigit) h2
  rw [takeWhile_append_stop Char.isDigit (strNat k) '.' t (strNat_digits k) (by decide),
    takeWhile_append_stop Char.isDigit (strNat k') '.' t' (strNat_digits k') (by decide)] at h3
  exact strNat_inj k k' h3

theorem strReplace_append_of_noOcc (old new : List Char) (hold : old ≠ []) :
    ∀ a t, noOccStarting old a t = true →
      strReplace (a ++ t) old new = a ++ strReplace t old new := by
  intro a
  induction a with
  | nil => intro t _; rfl
  | cons c a ih =>
    intro t h
    simp only [noOccStarting, Bool.and_eq_true, Bool.not_eq_true'] at h
    show strReplace (c :: (a ++ t)) old new = _
    rw [strReplace_head_skip old new c (a ++ t) hold h.1, ih t h.2]
    rfl

/-! ## Specification of the extraction loop -/

theorem docImages_cons (p : Page) (ps : List Page) :
    docImages (p :: ps) = p.images ++ docImages ps := by
  simp [docImages]

theorem processImages_spec (base : List Char) :
    ∀ (imgs : List EmbeddedImage) (c : Nat) (md : List Char),
      (processImages base c md imgs).err = none →
      (processImages base c md imgs).files.length = imgs.length ∧
      (processImages base c md imgs).counter = c + imgs.length ∧
      (∀ i img, imgs[i]? = some img →
        ((processImages base c md imgs).files.map ExtractedFile.name)[i]? =
          some (image_name base (c + i) img.id)) ∧
      (∀ img ∈ imgs, isOkE (decodePayload img.image_base64) = true) := by
  intro imgs
  induction imgs with
  | nil =>
    intro c md _
    refine ⟨rfl, by simp [processImages], ?_, by simp⟩
    intro i img hi
    simp at hi
  | cons img rest ih =>
    intro c md h
    cases hd : decodePayload img.image_base64 with
    | error e =>
      have hbad : (processImages base c md (img :: rest)).err = some e := by
        simp [processImages, extract_image, hd, Except.map]
      rw [hbad] at h
      cases h
    | ok bytes =>
      have hx : extract_image base c img = .ok ⟨image_name base c img.id, bytes⟩ := by
        simp [extract_image, hd, Except.map]
      have hstep : processImages base c md (img :: rest) =
          ⟨⟨image_name base c img.id, bytes⟩ ::
              (processImages base (c + 1)
                (replace_image_ref img.id
                  ("images/".toList ++ image_name base c img.id) md) rest).files,
            (processImages base (c + 1)
              (replace_image_ref img.id
                ("images/".toList ++ image_name base c img.id) md) rest).markdown,
            (processImages base (c + 1)
              (replace_image_ref img.id
                ("images/".toList ++ image_name base c img.id) md) rest).counter,
            (processImages base (c + 1)
              (replace_image_ref img.id
                ("images/".toList ++ image_name base c img.id) md) rest).err⟩ := by
        simp [processImages, hx]
      rw [hstep] at h ⊢
      have hrest := ih (c + 1)
        (replace_image_ref img.id ("images/".toList ++ image_name base c img.id) md) h
      refine ⟨?_, ?_, ?_, ?_⟩
      · simpa using hrest.1
      · show (processImages base (c + 1) _ rest).counter = _
        rw [hrest.2.1]
        simp [List.length_cons]
        omega
      · intro i img' hi
        cases i with
        | zero =>
          have himg : img = img' := by simpa using hi
          subst himg
          simp
        | succ i =>
          have hi' : rest[i]? = some img' := by simpa using hi
          have := hrest.2.2.1 i img' hi'
          have harith : c + 1 + i = c + (i + 1) := by omega
          rw [harith] at this
          simpa using this
      · intro img' hmem
        rcases List.mem_cons.mp hmem with rfl | hmem'
        · rw [hd]; rfl
        · exact hrest.2.2.2 img' hmem'

theorem processPages_spec (base : List Char) :
    ∀ (pages : List Page) (c : Nat),
      (processPages base c pages).err = none →
      (processPages base c pages).files.length = (docImages pages).length ∧
      (processPages base c pages).counter = c + (docImages pages).length ∧
      (processPages base c pages).pages.length = pages.length ∧
      (∀ i img, (docImages pages)[i]? = some img →
        ((processPages base c pages).files.map ExtractedFile.name)[i]? =
          some (image_name base (c + i) img.id)) ∧
      (∀ img ∈ docImages pages, isOkE (decodePayload img.image_base64) = true) := by
  intro pages
  induction pages with
  | nil =>
    intro c _
    refine ⟨rfl, by simp [processPages, docImages], by simp [processPages], ?_, by simp [docImages]⟩
    intro i img hi
    simp [docImages] at hi
  | cons p ps ih =>
    intro c h
    cases hr : (processImages base c p.markdown p.images).err with
    | some e =>
      have hbad : (processPages base c (p :: ps)).err = some e := by
        simp [processPages, hr]
      rw [hbad] at h
      cases h
    | none =>
      have hstep : processPages base c (p :: ps) =
          ⟨(processImages base c p.markdown p.images).files ++
              (processPages base (processImages base c p.markdown p.images).counter ps).files,
            (processImages base c p.markdown p.images).markdown ::
              (processPages base (processImages base c p.markdown p.images).counter ps).pages,
            (processPages base (processImages base c p.markdown p.images).counter ps).counter,
            (processPages base (processImages base c p.markdown p.images).counter ps).err⟩ := by
        simp [processPages, hr]
      rw [hstep] at h ⊢
      have hPI := processImages_spec base p.images c p.markdown hr
      have hPP := ih (processImages base c p.markdown p.images).counter h
      have hk : (processImages base c p.markdown p.images).counter = c + p.images.length :=
        hPI.2.1
      refine ⟨?_, ?_, ?_, ?_, ?_⟩
      · show ((processImages base c p.markdown p.images).files ++ _).length = _
        rw [docImages_cons, List.length_append, List.length_append, hPI.1, hPP.1]
      · show (processPages base _ ps).counter = _
        rw [hPP.2.1, hk, docImages_cons, List.length_append]
        omega
      · show ((processImages base c p.markdown p.images).markdown :: _).length = _
        simp [hPP.2.2.1]
      · intro i img hi
        rw [docImages_cons] at hi
        rw [List.map_append]
        by_cases hlt : i < p.images.length
        · rw [List.getElem?_append_left (by rw [List.length_map, hPI.1]; exact hlt)]
          rw [List.getElem?_append_left hlt] at hi
          exact hPI.2.2.1 i img hi
        · push_neg at hlt
          have hlen1 : ((processImages base c p.markdown p.images).files.map
              ExtractedFile.name).length = p.images.length := by
            rw [List.length_map, hPI.1]
          rw [List.getElem?_append_right (by rw [hlen1]; exact hlt)]
          rw [List.getElem?_append_right hlt] at hi
          have := hPP.2.2.2.1 (i - p.images.length) img hi
          have harith : (processImages base c p.markdown p.images).counter +
              (i - p.images.length) = c + i := by
            rw [hk]; omega
          rw [harith] at this
          rw [hlen1]
          exact this
      · intro img hmem
        rw [docImages_cons] at hmem
        rcases List.mem_append.mp hmem with hm | hm
        · exact hPI.2.2.2 img hm
        · exact hPP.2.2.2.2 img hm

/-! ## Demonstration documents used by the witnesses -/

/-- Demo document base name. -/
def demoBase : List Char := "doc".toList

/-- A three-page recognition result with per-page image counts `[2, 0, 3]`
and valid base64 payloads. -/
def demoPages : List Page :=
  [⟨"![a.png](a.png) and ![b.jpeg](b.jpeg)".toList,
      [⟨"a.png".toList, "QUJD".toList⟩, ⟨"b.jpeg".toList, "QQ==".toList⟩]⟩,
    ⟨[], []⟩,
    ⟨"![c](c)".toList,
      [⟨"c".toList, "QUJD".toList⟩, ⟨"d.gif".toList, "QQ==".toList⟩,
        ⟨"e.png".toList, "QUJD".toList⟩]⟩]

/-! ## Claim C1 -/

/-- C1, counterexample: a document with per-page image counts `[2, 0, 3]`
has `2 + 0 + 3 = 5` embedded images, so the code extracts five files with
counters 1..5 — not six files with counters 1..6 as the claim asserts. -/
theorem claim_C1_counterexample :
    (demoPages.map fun p => p.images.length) = [2, 0, 3] ∧
    (processPages demoBase 1 demoPages).err = none ∧
    (processPages demoBase 1 demoPages).files.length = 5 ∧
    ¬(processPages demoBase 1 demoPages).files.length = 6 := by
  decide

/-- C1 (amended): for every document whose extraction succeeds, the
extracted images are assigned names `{base}_img_{counter}{ext}` where the
counter starts at 1 and increases by exactly 1 per image in page order
across the whole document (never resetting at a page boundary, including
at pages with zero images), and the extension is `pathSuffix` of the
image id with fallback `.png`; for page image counts `[2, 0, 3]` the five
extracted images receive counters 1 through 5. -/
theorem claim_C1_amended (base : List Char) (pages : List Page)
    (h : (processPages base 1 pages).err = none) :
    (processPages base 1 pages).files.length =
      (pages.map fun p => p.images.length).sum ∧
    ∀ i img, (docImages pages)[i]? = some img →
      ((processPages base 1 pages).files.map ExtractedFile.name)[i]? =
        some (image_name base (1 + i) img.id) := by
  have hs := processPages_spec base pages 1 h
  refine ⟨?_, hs.2.2.2.1⟩
  rw [hs.1]
  unfold docImages
  rw [List.length_flatten, List.map_map]
  rfl

/-- Witness for C1 at the `[2, 0, 3]` demo document: five files, and the
fifth one (index 4) is named with counter `1 + 4 = 5` and extension
`.png`. -/
theorem claim_C1_witness :
    (processPages demoBase 1 demoPages).err = none ∧
    (processPages demoBase 1 demoPages).files.length =
      (demoPages.map fun p => p.images.length).sum ∧
    ((processPages demoBase 1 demoPages).files.map ExtractedFile.name)[4]? =
      some (image_name demoBase (1 + 4)
        (EmbeddedImage.mk "e.png".toList "QUJD".toList).id) := by
  have h : (processPages demoBase 1 demoPages).err = none := by decide
  exact ⟨h, (claim_C1_amended demoBase demoPages h).1,
    (claim_C1_amended demoBase demoPages h).2 4
      ⟨"e.png".toList, "QUJD".toList⟩ (by decide)⟩

/-! ## Claim C2 -/

/-- C2: for every document whose extraction succeeds, the number of
extracted image files equals the sum of the per-page image counts, and
the assigned names are pairwise distinct across the whole document (the
strictly increasing counter separates them even when ids collide). -/
theorem claim_C2 (base : List Char) (pages : List Page)
    (h : (processPages base 1 pages).err = none) :
    (processPages base 1 pages).files.length =
      (pages.map fun p => p.images.length).sum ∧
    ((processPages base 1 pages).files.map ExtractedFile.name).Nodup := by
  have hs := processPages_spec base pages 1 h
  constructor
  · rw [hs.1]
    unfold docImages
    rw [List.length_flatten, List.map_map]
    rfl
  · rw [List.nodup_iff_getElem?_ne_getElem?]
    intro i j hij hj hEq
    have hlenN : ((processPages base 1 pages).files.map ExtractedFile.name).length =
        (docImages pages).length := by
      rw [List.length_map, hs.1]
    have hjd : j < (docImages pages).length := by rwa [hlenN] at hj
    have hid : i < (docImages pages).length := lt_trans hij hjd
    obtain ⟨imgi, hdi⟩ : ∃ x, (docImages pages)[i]? = some x :=
      ⟨_, List.getElem?_eq_getElem hid⟩
    obtain ⟨imgj, hdj⟩ : ∃ x, (docImages pages)[j]? = some x :=
      ⟨_, List.getElem?_eq_getElem hjd⟩
    have hni := hs.2.2.2.1 i _ hdi
    have hnj := hs.2.2.2.1 j _ hdj
    rw [hni, hnj] at hEq
    have hname := Option.some_inj.mp hEq
    have := image_name_counter_inj base (1 + i) _ (1 + j) _ hname
    omega

/-- Witness for C2 at the demo document: five files, pairwise distinct
names. -/
theorem claim_C2_witness :
    (processPages demoBase 1 demoPages).err = none ∧
    (processPages demoBase 1 demoPages).files.length =
      (demoPages.map fun p => p.images.length).sum ∧
    ((processPages demoBase 1 demoPages).files.map ExtractedFile.name).Nodup := by
  have h : (processPages demoBase 1 demoPages).err = none := by decide
  exact ⟨h, (claim_C2 demoBase demoPages h).1, (claim_C2 demoBase demoPages h).2⟩

/-! ## Claim C3 -/

theorem imgPat_ne_nil (id : List Char) : imgPat id ≠ [] := by
  intro hcontra
  have hlen := congrArg List.length hcontra
  unfold imgPat at hlen
  rw [List.length_append, List.length_append, List.length_append,
    List.length_append] at hlen
  have h1 : ("![".toList).length = 2 := rfl
  have h2 : ("](".toList).length = 2 := rfl
  have h3 : (")".toList).length = 1 := rfl
  rw [h1, h2, h3] at hlen
  simp at hlen

/-- C3: rewriting a page markup for an id mapped to a relative path
(i) leaves the markup unchanged whenever the exact pattern `![id](id)`
does not occur in it — in particular text that merely contains the id as
a substring, or references not following the exact self-referential
pattern, are untouched; and (ii) replaces an occurrence of the exact
pattern by `![id](path)`, preserving the alt text, and continues to the
right of it. -/
theorem claim_C3 (id path md : List Char) :
    (hasSubstr (imgPat id) md = false → replace_image_ref id path md = md) ∧
    (∀ a b, md = a ++ (imgPat id ++ b) →
      noOccStarting (imgPat id) a (imgPat id ++ b) = true →
      replace_image_ref id path md =
        a ++ (imgRef id path ++ replace_image_ref id path b)) := by
  constructor
  · intro h
    unfold replace_image_ref
    exact strReplace_of_not_hasSubstr _ _ (imgPat_ne_nil id) md h
  · intro a b hmd hno
    subst hmd
    unfold replace_image_ref
    rw [strReplace_append_of_noOcc _ _ (imgPat_ne_nil id) a _ hno,
      strReplace_head_match _ _ _ (imgPat_ne_nil id)]

/-- Witness for C3: `![imgA](imgA)` with `imgA ↦ images/doc_img_1.png`
becomes exactly `![imgA](images/doc_img_1.png)`, and the earlier loose
occurrence of `imgA` in the text is unchanged. -/
theorem claim_C3_witness :
    replace_image_ref "imgA".toList "images/doc_img_1.png".toList
        "see imgA here ![imgA](imgA) end".toList =
      "see imgA here ![imgA](images/doc_img_1.png) end".toList := by
  have h := (claim_C3 "imgA".toList "images/doc_img_1.png".toList
      "see imgA here ![imgA](imgA) end".toList).2
    "see imgA here ".toList " end".toList (by decide) (by decide)
  rw [h]
  decide

/-! ## Claim C10 -/

/-- C10: the rewrite replaces every occurrence of the exact pattern
`![id](id)`, not only the first: a markup splitting as
`a ++ ![id](id) ++ b ++ ![id](id) ++ c` with no further occurrences has
both occurrences rewritten to the same relative path. -/
theorem claim_C10 (id path a b c : List Char)
    (ha : noOccStarting (imgPat id) a (imgPat id ++ (b ++ (imgPat id ++ c))) = true)
    (hb : noOccStarting (imgPat id) b (imgPat id ++ c) = true)
    (hc : hasSubstr (imgPat id) c = false) :
    replace_image_ref id path (a ++ (imgPat id ++ (b ++ (imgPat id ++ c)))) =
      a ++ (imgRef id path ++ (b ++ (imgRef id path ++ c))) := by
  unfold replace_image_ref
  rw [strReplace_append_of_noOcc _ _ (imgPat_ne_nil id) a _ ha,
    strReplace_head_match _ _ _ (imgPat_ne_nil id),
    strReplace_append_of_noOcc _ _ (imgPat_ne_nil id) b _ hb,
    strReplace_head_match _ _ _ (imgPat_ne_nil id),
    strReplace_of_not_hasSubstr _ _ (imgPat_ne_nil id) c hc]

/-- Witness for C10: a markup with the same self-referential reference
twice has both occurrences rewritten. -/
theorem claim_C10_witness :
    replace_image_ref "imgA".toList "images/doc_img_1.png".toList
        "x ![imgA](imgA) y ![imgA](imgA) z".toList =
      "x ![imgA](images/doc_img_1.png) y ![imgA](images/doc_img_1.png) z".toList := by
  have harg : "x ![imgA](imgA) y ![imgA](imgA) z".toList =
      "x ".toList ++ (imgPat "imgA".toList ++ (" y ".toList ++
        (imgPat "imgA".toList ++ " z".toList))) := by decide
  have h := claim_C10 "imgA".toList "images/doc_img_1.png".toList
    "x ".toList " y ".toList " z".toList (by decide) (by decide) (by decide)
  rw [harg, h]
  decide

/-! ## Claim C9 -/

/-- C9: a payload that starts with `data:` but contains no comma makes
extraction fail with the `IndexError` from `split(",", 1)[1]` instead of
decoding; and the prefix-stripping branch is taken only for payloads that
start with `data:` — otherwise the payload is decoded as-is. -/
theorem claim_C9 (p : List Char) :
    (("data:".toList).isPrefixOf p = true → ',' ∉ p →
      decodePayload p = .error .indexError) ∧
    (("data:".toList).isPrefixOf p = false →
      decodePayload p = (b64decode p).mapError ExtractError.binascii) := by
  constructor
  · intro h1 h2
    unfold decodePayload
    rw [if_pos h1]
    have hnil : p.dropWhile (fun c => c ≠ ',') = [] := by
      rw [List.dropWhile_eq_nil_iff]
      intro x hx
      have hne : x ≠ ',' := fun hcontra => h2 (hcontra ▸ hx)
      simp [hne]
    rw [hnil]
  · intro h1
    unfold decodePayload
    rw [if_neg (by rw [h1]; simp)]

/-- Witness for C9: a `data:` payload without a comma raises, and a
payload without the prefix is decoded unchanged. -/
theorem claim_C9_witness :
    decodePayload "data:image png base64 QUJD".toList = .error .indexError ∧
    decodePayload "QUJD".toList =
      (b64decode "QUJD".toList).mapError ExtractError.binascii := by
  exact ⟨(claim_C9 "data:image png base64 QUJD".toList).1 (by decide) (by decide),
    (claim_C9 "QUJD".toList).2 (by decide)⟩

/-! ## Claim C4 -/

/-- C4: assembly joins the rewritten page texts in page order with
exactly two newline characters between each adjacent pair; a page with
empty markup still contributes an (empty) segment bounded by the
separators; and a page with no images passes the counter through
unchanged, so it does not shift the numbering of images extracted from
surrounding pages. -/
theorem claim_C4 (x y : List Char) (ts : List (List Char)) (base : List Char)
    (cnt : Nat) (e : Page) (ps : List Page) (he : e.images = []) :
    assemble [] = [] ∧
    assemble [x] = x ∧
    assemble (x :: y :: ts) = x ++ '\n' :: '\n' :: assemble (y :: ts) ∧
    assemble [x, [], y] = x ++ '\n' :: '\n' :: '\n' :: '\n' :: y ∧
    processPages base cnt (e :: ps) =
      ⟨(processPages base cnt ps).files,
        e.markdown :: (processPages base cnt ps).pages,
        (processPages base cnt ps).counter,
        (processPages base cnt ps).err⟩ := by
  refine ⟨rfl, ?_, ?_, ?_, ?_⟩
  · simp [assemble, List.intercalate]
  · simp [assemble, List.intercalate, List.intersperse]
  · simp [assemble, List.intercalate, List.intersperse]
  · simp [processPages, processImages, he]

/-- Witness for C4: a concrete three-segment assembly with an empty
middle page, and an imageless page prepended to the demo document leaving
its extraction results untouched. -/
theorem claim_C4_witness :
    assemble ["p1".toList, [], "p3".toList] =
      "p1".toList ++ '\n' :: '\n' :: '\n' :: '\n' :: "p3".toList ∧
    processPages demoBase 1 (⟨[], []⟩ :: demoPages) =
      ⟨(processPages demoBase 1 demoPages).files,
        ([] : List Char) :: (processPages demoBase 1 demoPages).pages,
        (processPages demoBase 1 demoPages).counter,
        (processPages demoBase 1 demoPages).err⟩ := by
  have h := claim_C4 "p1".toList "p3".toList [] demoBase 1 ⟨[], []⟩ demoPages rfl
  exact ⟨h.2.2.2.1, h.2.2.2.2⟩

/-! ## Branch characterizations of `runDoc` -/

theorem runDoc_ocr_none (pandoc : Bool) (d : PdfDoc) (h : d.ocrResult = none) :
    runDoc pandoc d = ⟨[], some .ocrFailed, none⟩ := by
  simp [runDoc, h]

theorem runDoc_extract_err (pandoc : Bool) (d : PdfDoc) (pages : List Page)
    (e : ExtractError) (h1 : d.ocrResult = some pages)
    (h2 : (processPages d.stem 1 pages).err = some e) :
    runDoc pandoc d =
      ⟨Action.writeOcrJson d.stem ::
          (processPages d.stem 1 pages).files.map
            (fun f => Action.writeImage d.stem f.name),
        some (.extractFailed e), none⟩ := by
  simp [runDoc, h1, h2]

theorem runDoc_persist_err (pandoc : Bool) (d : PdfDoc) (pages : List Page)
    (h1 : d.ocrResult = some pages) (h2 : (processPages d.stem 1 pages).err = none)
    (h3 : d.persistFails = true) :
    runDoc pandoc d =
      ⟨Action.writeOcrJson d.stem ::
          (processPages d.stem 1 pages).files.map
            (fun f => Action.writeImage d.stem f.name),
        some .writeFailed, none⟩ := by
  simp [runDoc, h1, h2, h3]

theorem runDoc_success (pandoc : Bool) (d : PdfDoc) (pages : List Page)
    (h1 : d.ocrResult = some pages) (h2 : (processPages d.stem 1 pages).err = none)
    (h3 : d.persistFails = false) :
    runDoc pandoc d =
      ⟨(Action.writeOcrJson d.stem ::
          (processPages d.stem 1 pages).files.map
            (fun f => Action.writeImage d.stem f.name) ++
          [Action.writeMarkdown d.stem] ++
          (if pandoc then [Action.runPandoc d.stem] else [])) ++
          [Action.moveToDone d.name],
        none,
        if pandoc then some (convert_md_to_latex d.pandocFails d.stem) else none⟩ := by
  simp [runDoc, h1, h2, h3]

theorem move_not_in_writes (stem : List Char) (files : List ExtractedFile)
    (nm : List Char) :
    Action.moveToDone nm ∉
      Action.writeOcrJson stem :: files.map (fun f => Action.writeImage stem f.name) := by
  intro hmem
  rcases List.mem_cons.mp hmem with h | h
  · cases h
  · obtain ⟨f, _, hf⟩ := List.mem_map.mp h
    cases hf

theorem runDoc_fail_no_move (pandoc : Bool) (d : PdfDoc)
    (h : (runDoc pandoc d).err.isSome = true) :
    ∀ nm, Action.moveToDone nm ∉ (runDoc pandoc d).trace := by
  cases hocr : d.ocrResult with
  | none =>
    rw [runDoc_ocr_none pandoc d hocr]
    intro nm hmem
    cases hmem
  | some pages =>
    cases herr : (processPages d.stem 1 pages).err with
    | some e =>
      rw [runDoc_extract_err pandoc d pages e hocr herr]
      exact fun nm => move_not_in_writes d.stem _ nm
    | none =>
      cases hp : d.persistFails with
      | true =>
        rw [runDoc_persist_err pandoc d pages hocr herr hp]
        exact fun nm => move_not_in_writes d.stem _ nm
      | false =>
        rw [runDoc_success pandoc d pages hocr herr hp] at h
        cases h

theorem runDoc_success_move (pandoc : Bool) (d : PdfDoc)
    (h : (runDoc pandoc d).err = none) :
    Action.moveToDone d.name ∈ (runDoc pandoc d).trace := by
  cases hocr : d.ocrResult with
  | none =>
    rw [runDoc_ocr_none pandoc d hocr] at h
    cases h
  | some pages =>
    cases herr : (processPages d.stem 1 pages).err with
    | some e =>
      rw [runDoc_extract_err pandoc d pages e hocr herr] at h
      cases h
    | none =>
      cases hp : d.persistFails with
      | true =>
        rw [runDoc_persist_err pandoc d pages hocr herr hp] at h
        cases h
      | false =>
        rw [runDoc_success pandoc d pages hocr herr hp]
        exact List.mem_append_right _ (List.mem_singleton_self _)

/-! ## Claim C5 -/

/-- C5, counterexample: a payload that fails binary decoding raises an
error that does not identify the offending image id — two images with
distinct ids but the same malformed payload produce identical errors, so
the error cannot identify the id.  (The per-document handler on line 243
reports the document name, not the image id.) -/
theorem claim_C5_counterexample :
    extract_image "doc".toList 1 ⟨"figA.png".toList, "A".toList⟩ =
      .error (.binascii .invalidData) ∧
    extract_image "doc".toList 1 ⟨"figA.png".toList, "A".toList⟩ =
      extract_image "doc".toList 1 ⟨"figB.jpeg".toList, "A".toList⟩ ∧
    "figA.png".toList ≠ "figB.jpeg".toList := by
  decide

/-- C5 (amended): for every embedded image whose payload fails binary
decoding, extraction raises a document-fatal error: the document run ends
in a reported failure and the input is never archived.  The error value
is the decode error itself; it does not carry the image id (the batch
handler identifies the offending document instead). -/
theorem claim_C5_amended (pandoc : Bool) (d : PdfDoc) (pages : List Page)
    (img : EmbeddedImage) (h1 : d.ocrResult = some pages)
    (h2 : img ∈ docImages pages)
    (h3 : isOkE (decodePayload img.image_base64) = false) :
    (runDoc pandoc d).err.isSome = true ∧
    ∀ nm, Action.moveToDone nm ∉ (runDoc pandoc d).trace := by
  have herr : (processPages d.stem 1 pages).err ≠ none := by
    intro hnone
    have hok := (processPages_spec d.stem pages 1 hnone).2.2.2.2 img h2
    rw [h3] at hok
    cases hok
  obtain ⟨e, he⟩ : ∃ e, (processPages d.stem 1 pages).err = some e := by
    cases hcase : (processPages d.stem 1 pages).err with
    | none => exact absurd hcase herr
    | some e => exact ⟨e, rfl⟩
  have hsome : (runDoc pandoc d).err.isSome = true := by
    rw [runDoc_extract_err pandoc d pages e h1 he]
    rfl
  exact ⟨hsome, runDoc_fail_no_move pandoc d hsome⟩

/-- A document whose only embedded image has a malformed payload. -/
def badDoc : PdfDoc :=
  ⟨"bad.pdf".toList, "bad".toList,
    some [⟨"![x](x)".toList, [⟨"x".toList, "A".toList⟩]⟩], false, false⟩

/-- Witness for C5 at `badDoc`: the run fails and the input is not
moved. -/
theorem claim_C5_witness :
    (runDoc true badDoc).err.isSome = true ∧
    Action.moveToDone "bad.pdf".toList ∉ (runDoc true badDoc).trace := by
  have h := claim_C5_amended true badDoc
    [⟨"![x](x)".toList, [⟨"x".toList, "A".toList⟩]⟩]
    ⟨"x".toList, "A".toList⟩ rfl (by decide) (by decide)
  exact ⟨h.1, h.2 "bad.pdf".toList⟩

/-! ## Claim C6 -/

/-- C6: the batch result decomposes pointwise — one document's
(recognition, payload, or filesystem-write) failure never aborts or skips
the processing of the other documents — and a failed document is reported
(its result carries the error) and left un-archived, while a successful
one is moved. -/
theorem claim_C6 (pandoc : Bool) (ds₁ ds₂ : List PdfDoc) (d : PdfDoc) :
    mainBatch pandoc (ds₁ ++ d :: ds₂) =
      mainBatch pandoc ds₁ ++ runDoc pandoc d :: mainBatch pandoc ds₂ ∧
    ((runDoc pandoc d).err.isSome = true →
      ∀ nm, Action.moveToDone nm ∉ (runDoc pandoc d).trace) ∧
    ((runDoc pandoc d).err = none →
      Action.moveToDone d.name ∈ (runDoc pandoc d).trace) :=
  ⟨by simp [mainBatch], runDoc_fail_no_move pandoc d, runDoc_success_move pandoc d⟩

/-- A document whose whole pipeline succeeds. -/
def okDoc1 : PdfDoc :=
  ⟨"one.pdf".toList, "one".toList, some [⟨"hello".toList, []⟩], false, false⟩

/-- A document whose recognition call fails. -/
def failDoc : PdfDoc :=
  ⟨"two.pdf".toList, "two".toList, none, false, false⟩

/-- Another fully successful document. -/
def okDoc2 : PdfDoc :=
  ⟨"three.pdf".toList, "three".toList, some [⟨"world".toList, []⟩], false, false⟩

/-- A successful document whose pandoc invocation fails. -/
def pandocFailDoc : PdfDoc :=
  ⟨"four.pdf".toList, "four".toList, some [⟨"hi".toList, []⟩], false, true⟩

/-- Witness for C6: a batch of three documents where the middle one's
recognition fails — the batch still visits all three, the failed one is
not moved, the successful ones are. -/
theorem claim_C6_witness :
    mainBatch true ([okDoc1] ++ failDoc :: [okDoc2]) =
      mainBatch true [okDoc1] ++ runDoc true failDoc :: mainBatch true [okDoc2] ∧
    Action.moveToDone "two.pdf".toList ∉ (runDoc true failDoc).trace ∧
    Action.moveToDone "one.pdf".toList ∈ (runDoc true okDoc1).trace := by
  refine ⟨(claim_C6 true [okDoc1] [okDoc2] failDoc).1,
    (claim_C6 true [okDoc1] [okDoc2] failDoc).2.1 (by decide) "two.pdf".toList,
    (claim_C6 true [] [failDoc, okDoc2] okDoc1).2.2 (by decide)⟩

/-! ## Claim C7 -/

/-- C7: for every successfully processed document, the move of the input
to the done directory is the last action of its trace — it happens only
after the assembled markdown and every extracted image file have been
written — and a document whose processing fails is never moved. -/
theorem claim_C7 (pandoc : Bool) (d : PdfDoc) :
    ((runDoc pandoc d).err = none →
      ∃ t, (runDoc pandoc d).trace = t ++ [Action.moveToDone d.name] ∧
        (∀ nm, Action.moveToDone nm ∉ t) ∧
        Action.writeMarkdown d.stem ∈ t ∧
        ∀ pages, d.ocrResult = some pages →
          ∀ f ∈ (processPages d.stem 1 pages).files,
            Action.writeImage d.stem f.name ∈ t) ∧
    ((runDoc pandoc d).err.isSome = true →
      ∀ nm, Action.moveToDone nm ∉ (runDoc pandoc d).trace) := by
  refine ⟨?_, runDoc_fail_no_move pandoc d⟩
  intro h
  cases hocr : d.ocrResult with
  | none =>
    rw [runDoc_ocr_none pandoc d hocr] at h
    cases h
  | some pages =>
    cases herr : (processPages d.stem 1 pages).err with
    | some e =>
      rw [runDoc_extract_err pandoc d pages e hocr herr] at h
      cases h
    | none =>
      cases hp : d.persistFails with
      | true =>
        rw [runDoc_persist_err pandoc d pages hocr herr hp] at h
        cases h
      | false =>
        rw [runDoc_success pandoc d pages hocr herr hp]
        refine ⟨Action.writeOcrJson d.stem ::
            (processPages d.stem 1 pages).files.map
              (fun f => Action.writeImage d.stem f.name) ++
            [Action.writeMarkdown d.stem] ++
            (if pandoc then [Action.runPandoc d.stem] else []), rfl, ?_, ?_, ?_⟩
        · intro nm hmem
          rcases List.mem_append.mp hmem with hm | hm
          · rcases List.mem_append.mp hm with hm2 | hm2
            · exact move_not_in_writes d.stem _ nm hm2
            · rw [List.mem_singleton] at hm2
              cases hm2
          · revert hm
            cases pandoc <;> intro hm <;> simp at hm
        · exact List.mem_append_left _
            (List.mem_append_right _ (List.mem_singleton_self _))
        · intro pages' hp' f hf
          have hpe : pages = pages' := Option.some_inj.mp hp'
          subst hpe
          exact List.mem_append_left _ (List.mem_append_left _
            (List.mem_cons_of_mem _ (List.mem_map_of_mem _ hf)))

/-- Witness for C7 at a successful document: its run succeeds, and the
last element of its action trace is the move of its input. -/
theorem claim_C7_witness :
    (runDoc true okDoc1).err = none ∧
    (runDoc true okDoc1).trace.getLast? =
      some (Action.moveToDone "one.pdf".toList) := by
  obtain ⟨t, ht, _, _, _⟩ := (claim_C7 true okDoc1).1 (by decide)
  refine ⟨by decide, ?_⟩
  rw [ht, List.getLast?_append_cons]
  rfl

/-! ## Claim C8 -/

theorem runDoc_pandoc_unavailable (d : PdfDoc) :
    (runDoc false d).tex = none ∧
    ∀ s, Action.runPandoc s ∉ (runDoc false d).trace := by
  cases hocr : d.ocrResult with
  | none =>
    rw [runDoc_ocr_none false d hocr]
    exact ⟨rfl, fun s hmem => by cases hmem⟩
  | some pages =>
    cases herr : (processPages d.stem 1 pages).err with
    | some e =>
      rw [runDoc_extract_err false d pages e hocr herr]
      refine ⟨rfl, fun s hmem => ?_⟩
      rcases List.mem_cons.mp hmem with hm | hm
      · cases hm
      · obtain ⟨f, _, hf⟩ := List.mem_map.mp hm
        cases hf
    | none =>
      cases hp : d.persistFails with
      | true =>
        rw [runDoc_persist_err false d pages hocr herr hp]
        refine ⟨rfl, fun s hmem => ?_⟩
        rcases List.mem_cons.mp hmem with hm | hm
        · cases hm
        · obtain ⟨f, _, hf⟩ := List.mem_map.mp hm
          cases hf
      | false =>
        rw [runDoc_success false d pages hocr herr hp]
        refine ⟨by simp, fun s hmem => ?_⟩
        simp at hmem

/-- C8: when the converter tool is unavailable the conversion stage is
skipped for the whole run (no document's result carries a conversion
outcome and no pandoc invocation appears in any trace); and when a
converter invocation fails the conversion yields no output but a
reported diagnostic, while the document remains successfully persisted:
its run succeeds, its markdown write is in the trace, and its input is
archived. -/
theorem claim_C8 (docs : List PdfDoc) (d : PdfDoc) (pages : List Page)
    (h1 : d.ocrResult = some pages) (h2 : (processPages d.stem 1 pages).err = none)
    (h3 : d.persistFails = false) (h4 : d.pandocFails = true) :
    (∀ r ∈ mainBatch false docs, r.tex = none ∧
      ∀ s, Action.runPandoc s ∉ r.trace) ∧
    (runDoc true d).err = none ∧
    (runDoc true d).tex = some (.error .processError) ∧
    Action.writeMarkdown d.stem ∈ (runDoc true d).trace ∧
    Action.moveToDone d.name ∈ (runDoc true d).trace := by
  refine ⟨?_, ?_, ?_, ?_, ?_⟩
  · intro r hr
    simp only [mainBatch, List.mem_map] at hr
    obtain ⟨d', _, rfl⟩ := hr
    exact runDoc_pandoc_unavailable d'
  · rw [runDoc_success true d pages h1 h2 h3]
  · rw [runDoc_success true d pages h1 h2 h3]
    simp [convert_md_to_latex, h4]
  · rw [runDoc_success true d pages h1 h2 h3]
    exact List.mem_append_left _ (List.mem_append_left _
      (List.mem_append_right _ (List.mem_singleton_self _)))
  · rw [runDoc_success true d pages h1 h2 h3]
    exact List.mem_append_right _ (List.mem_singleton_self _)

/-- Witness for C8 at `pandocFailDoc`: with pandoc available but the
invocation failing, the run still succeeds, reports the conversion
diagnostic with no output, and archives the input; with pandoc
unavailable its result carries no conversion outcome. -/
theorem claim_C8_witness :
    (runDoc true pandocFailDoc).err = none ∧
    (runDoc true pandocFailDoc).tex = some (.error .processError) ∧
    Action.moveToDone "four.pdf".toList ∈ (runDoc true pandocFailDoc).trace ∧
    (runDoc false pandocFailDoc).tex = none := by
  have h := claim_C8 [pandocFailDoc] pandocFailDoc [⟨"hi".toList, []⟩]
    rfl (by decide) rfl rfl
  exact ⟨h.2.1, h.2.2.1, h.2.2.2.2,
    (h.1 (runDoc false pandocFailDoc) (by simp [mainBatch])).1⟩

end PdfPipeline
